import Mathlib

/-!
Verification development for the repoman repository manager.

The Go sources are shallowly embedded here:
- strings are modelled as lists of characters (`Str`);
- the content store of `update/update_repo.go` (MD5-based dedup, the
  collision-resolving storage-name loop, the copy loop) is translated to
  executable functions;
- the index data model and the channel operations of `setchan` and
  `mkchan` are translated to pure functions on an `Index` record;
- the publish orchestrator `UpdateRepo` is modelled as a function over a
  `World` describing the outcomes of the filesystem operations it
  performs, returning the exit code and the write effects it produced.
-/

namespace Repoman

/-- Go strings are byte slices; we model them as lists of characters. -/
abbrev Str := List Char

/-! ## Decimal rendering (Go `%d` on the non-negative collision counter)

`fmt.Sprintf("%d", n)` for a non-negative integer prints the base-10
digits of `n`, which is exactly `Nat.toDigits 10 n`.  The lemmas below
establish that this rendering is injective, which the collision loop's
termination argument needs. -/

/-- Numeric value of a decimal digit character. -/
def digitVal (c : Char) : Nat := c.toNat - 48

/-- Base-10 value of a digit-character list (most significant first). -/
def listVal : List Char → Nat
  | [] => 0
  | c :: cs => digitVal c * 10 ^ cs.length + listVal cs

theorem digitVal_digitChar : ∀ d, d < 10 → digitVal (Nat.digitChar d) = d := by decide

theorem listVal_toDigitsCore :
    ∀ (fuel n : Nat) (ds : List Char), n < fuel →
      listVal (Nat.toDigitsCore 10 fuel n ds) = n * 10 ^ ds.length + listVal ds := by
  intro fuel
  induction fuel with
  | zero => intro n ds h; omega
  | succ f ih =>
    intro n ds h
    simp only [Nat.toDigitsCore]
    by_cases h10 : n / 10 = 0
    · simp only [h10, if_pos rfl]
      have hlt : n % 10 < 10 := Nat.mod_lt _ (by omega)
      have hn : n % 10 = n := by omega
      simp only [listVal]
      rw [digitVal_digitChar _ hlt, hn]
    · simp only [if_neg h10]
      have hrec : n / 10 < f := by
        have h1 : n / 10 < n := Nat.div_lt_self (by omega) (by omega)
        omega
      rw [ih (n / 10) (Nat.digitChar (n % 10) :: ds) hrec]
      have hlt : n % 10 < 10 := Nat.mod_lt _ (by omega)
      simp only [listVal, List.length_cons, digitVal_digitChar _ hlt]
      rw [pow_succ]
      have harr : n / 10 * (10 ^ ds.length * 10) + (n % 10 * 10 ^ ds.length + listVal ds)
          = (10 * (n / 10) + n % 10) * 10 ^ ds.length + listVal ds := by ring
      rw [harr, Nat.div_add_mod]

theorem listVal_toDigits (n : Nat) : listVal (Nat.toDigits 10 n) = n := by
  have := listVal_toDigitsCore (n + 1) n [] (by omega)
  simpa [listVal] using this

theorem toDigits_injective {m n : Nat} (h : Nat.toDigits 10 m = Nat.toDigits 10 n) :
    m = n := by
  have := congrArg listVal h
  rwa [listVal_toDigits, listVal_toDigits] at this

theorem length_toDigitsCore_le :
    ∀ (fuel n : Nat) (ds : List Char),
      ds.length ≤ (Nat.toDigitsCore 10 fuel n ds).length := by
  intro fuel
  induction fuel with
  | zero => intro n ds; simp [Nat.toDigitsCore]
  | succ f ih =>
    intro n ds
    simp only [Nat.toDigitsCore]
    by_cases h10 : n / 10 = 0
    · simp [h10]
    · simp only [if_neg h10]
      have := ih (n / 10) (Nat.digitChar (n % 10) :: ds)
      simp only [List.length_cons] at this
      omega

theorem one_le_length_toDigits (n : Nat) : 1 ≤ (Nat.toDigits 10 n).length := by
  show 1 ≤ (Nat.toDigitsCore 10 (n + 1) n []).length
  simp only [Nat.toDigitsCore]
  by_cases h10 : n / 10 = 0
  · simp [h10]
  · simp only [if_neg h10]
    have := length_toDigitsCore_le n (n / 10) [Nat.digitChar (n % 10)]
    simpa using this

/-! ## Content store (`update/update_repo.go`, lines 70-249)

`md5util.RecursiveMD5Calc` (an external capability per the spec) yields a
list of `(path, md5)` pairs; `fileStorageData` triples carry the storage
name, install path and hash of a file. -/

/-- An entry produced by the recursive MD5 walk (`md5util.FileMD5Data`). -/
structure FileMD5 where
  path : Str
  md5 : Str
deriving DecidableEq, Repr

/-- `fileStorageData` from `update_repo.go` lines 70-79. -/
structure StorageData where
  fileStoragePath : Str
  installPath : Str
  md5 : Str
deriving DecidableEq, Repr

/-- `filepath.Base`: the last component of a slash-separated path. -/
def basename (p : Str) : Str := (p.splitOn '/').getLastD p

/-- The storage-name candidate built from the loop state at
`update_repo.go` lines 215 and 222-227: hash slice of length `ps`, then
the numeric suffix once `pn` is non-negative, then the base name. -/
def mkName (h base : Str) (ps : Nat) (pn : Int) : Str :=
  if pn < 0 then h.take ps ++ '-' :: base
  else h.take ps ++ '-' :: Nat.toDigits 10 pn.toNat ++ '-' :: base

/-- The collision loop of `update_repo.go` lines 216-228, made explicit
with fuel.  `disk` is the set of names present in the file storage
directory (what the loop's `os.Stat` probes observe).  Returns the chosen
name together with the number of probes performed. -/
def nameLoopGo (disk : List Str) (h base : Str) :
    Nat → Nat → Int → Str → Option (Str × Nat)
  | 0, _, _, _ => none
  | fuel + 1, ps, pn, name =>
    if name ∈ disk then
      let ps2 := if ps < 32 then ps + 1 else ps
      let pn2 := if ps < 32 then pn else pn + 1
      match nameLoopGo disk h base fuel ps2 pn2 (mkName h base ps2 pn2) with
      | none => none
      | some (n, c) => some (n, c + 1)
    else some (name, 1)

/-- Entry into the collision loop with its initial state
(`prefixSize = 4`, `prefixNum = -1`, lines 212-215).  The fuel
`disk.length + 1` is proved sufficient below for 32-character hashes. -/
def assignNameRes (disk : List Str) (h base : Str) : Option (Str × Nat) :=
  nameLoopGo disk h base (disk.length + 1) 4 (-1) (mkName h base 4 (-1))

/-- The storage name the collision loop settles on. -/
def assignName (disk : List Str) (h base : Str) : Str :=
  match assignNameRes disk h base with
  | some (n, _) => n
  | none => []

/-- The inner matching loop of `update_repo.go` lines 198-204: first
storage entry whose MD5 equals the incoming file's MD5. -/
def findMatch : List FileMD5 → Str → Option FileMD5
  | [], _ => none
  | e :: es, h => if e.md5 = h then some e else findMatch es h

/-- The dummy-entry hack of `update_repo.go` lines 190-194: an empty
storage list is replaced by a single entry with empty path and MD5. -/
def hackList (fs : List FileMD5) : List FileMD5 :=
  if fs.length = 0 then [{ path := [], md5 := [] }] else fs

/-- Processing of one incoming file (`update_repo.go` lines 197-232):
either it is mapped to an existing storage entry (left) or queued for
addition under a freshly assigned storage name (right). -/
def processFile (fsList : List FileMD5) (disk : List Str) (nv : FileMD5) :
    StorageData ⊕ StorageData :=
  match findMatch fsList nv.md5 with
  | some e => Sum.inl { fileStoragePath := e.path, installPath := nv.path, md5 := e.md5 }
  | none => Sum.inr { fileStoragePath := assignName disk nv.md5 (basename nv.path),
                      installPath := nv.path, md5 := nv.md5 }

/-- The full diff loop of `update_repo.go` lines 188-233: returns the
`fileStorageMap` entries found already in storage and the `addToStorage`
list, both in input order. -/
def computeDiff (nvList fsList : List FileMD5) (disk : List Str) :
    List StorageData × List StorageData :=
  nvList.foldl
    (fun acc nv =>
      match processFile (hackList fsList) disk nv with
      | Sum.inl sd => (acc.1 ++ [sd], acc.2)
      | Sum.inr sd => (acc.1, acc.2 ++ [sd]))
    ([], [])

/-- The storage name an incoming file is resolved to, whether by dedup
match or by fresh assignment. -/
def resolvedName (fsList : List FileMD5) (disk : List Str) (nv : FileMD5) : Str :=
  match processFile fsList disk nv with
  | Sum.inl sd => sd.fileStoragePath
  | Sum.inr sd => sd.fileStoragePath

/-- The copy loop of `update_repo.go` lines 236-249.  Each `addToStorage`
entry is created exclusively (`O_EXCL`): creation fails with exit code 42
if the target name already exists (including names created earlier in the
same loop) or if `createFails` says so, and the source open can fail with
exit code 43.  On error the names created so far are returned with the
code. -/
def copyFiles (disk : List Str) (srcFails createFails : Str → Bool) :
    List StorageData → List Str → Except (Int × List Str) (List Str)
  | [], created => Except.ok created
  | m :: rest, created =>
    if m.fileStoragePath ∈ disk ++ created ∨ createFails m.fileStoragePath then
      Except.error (42, created)
    else if srcFails m.installPath then
      Except.error (43, created)
    else copyFiles disk srcFails createFails rest (created ++ [m.fileStoragePath])

/-- Sequential assignment of storage names to a list of `(md5, basename)`
pairs, each name being materialized in storage before the next file is
processed (the cross-publish situation: one colliding file per publish). -/
def assignSeq : List (Str × Str) → List Str → List Str
  | [], _ => []
  | f :: rest, disk =>
    let n := assignName disk f.1 f.2
    n :: assignSeq rest (disk ++ [n])

/-! ## Version manifest data (`GoUpdate/repo` shapes, spec section 3) and
the version builder (`update_repo.go` lines 251-264). -/

/-- A retrieval source for a file (`repo.FileSource`). -/
structure FileSource where
  sourceType : String
  url : Str
deriving DecidableEq, Repr

/-- A manifest entry (`repo.FileInfo`). -/
structure FileInfo where
  path : Str
  sources : List FileSource
  md5 : Str
deriving DecidableEq, Repr

/-- A version manifest (`repo.Version`). -/
structure Version where
  id : Int
  name : String
  files : List FileInfo
deriving DecidableEq, Repr

/-- `update_repo.go` lines 83-85: the URL base is given a trailing slash
if it lacks one. -/
def normalizeUrlBase (u : Str) : Str :=
  if u.getLast? = some '/' then u else u ++ ['/']

/-- The manifest-building loop of `update_repo.go` lines 254-264: one
`FileInfo` per mapped file, with a single http source whose URL is the
(normalized) base concatenated with the storage name. -/
def buildVersion (vid : Int) (vname : String) (urlBase : Str)
    (storageMap : List StorageData) : Version :=
  { id := vid, name := vname,
    files := storageMap.map fun sd =>
      { path := sd.installPath, md5 := sd.md5,
        sources := [{ sourceType := "http", url := urlBase ++ sd.fileStoragePath }] } }

/-! ## Index data model (`GoUpdate/repo` shapes, spec section 3) and the
channel operations of `setchan` and `mkchan`. -/

/-- A release channel (`repo.Channel`).  `currentVersion` is an integer
field in Go; negative values are the unset sentinel used by `setchan`. -/
structure Channel where
  id : String
  name : String
  currentVersion : Int
deriving DecidableEq, Repr

/-- A version summary in the index (`repo.VersionSummary`). -/
structure VersionSummary where
  id : Int
  name : String
deriving DecidableEq, Repr

/-- The repository index (`repo.Index`). -/
structure Index where
  channels : List Channel
  versions : List VersionSummary
deriving DecidableEq, Repr

/-- The channel mutation of `SetChan` (subcmd source, `setchan` package,
lines 240-265): the first channel whose ID matches is removed (negative
version) or has its current version replaced; if none matches, a new
channel with name equal to the ID and the given version is appended. -/
def setChannels : List Channel → String → Int → List Channel
  | [], chanId, versionId => [{ id := chanId, name := chanId, currentVersion := versionId }]
  | c :: rest, chanId, versionId =>
    if c.id = chanId then
      if versionId < 0 then rest
      else { c with currentVersion := versionId } :: rest
    else c :: setChannels rest chanId versionId

/-- The in-memory index transformation performed by `SetChan` between
loading and saving the index (it never touches the version list). -/
def setChanIndex (idx : Index) (chanId : String) (versionId : Int) : Index :=
  { idx with channels := setChannels idx.channels chanId versionId }

/-- The index transformation of `CreateChan` (`mkchan/mkchan.go` lines
99-110): error with exit code 42 if a channel with the ID exists,
otherwise append `repo.Channel{Id: chanId, Name: chanId}` whose
`CurrentVersion` field is the Go zero value 0. -/
def createChanIndex (idx : Index) (chanId : String) : Except Int Index :=
  if idx.channels.any (fun c => c.id = chanId) then Except.error 42
  else Except.ok
    { idx with channels :=
        idx.channels ++ [{ id := chanId, name := chanId, currentVersion := 0 }] }

/-! ## The publish orchestrator (`UpdateRepo`, `update_repo.go` lines
81-310)

The filesystem is abstracted into a `World` recording the outcome of each
operation `UpdateRepo` performs, in program order.  The function returns
the exit code (`Except Int Unit`, mirroring `subcmd.Error` exit codes)
together with the writes it performed. -/

/-- Outcome of an `os.Stat` call. -/
inductive StatRes
  | isDir
  | notDir
  | notExist
  | permDenied
  | otherErr
deriving DecidableEq, Repr

/-- Outcome of reading and unmarshalling the index file: a successful
read carries the parse result (`none` when `json.Unmarshal` fails). -/
inductive ReadRes
  | ok (parsed : Option Index)
  | notExist
  | permDenied
  | otherErr
deriving DecidableEq, Repr

/-- Outcome of an `os.OpenFile` call that is not decided by existence. -/
inductive OpenRes
  | ok
  | permDenied
  | otherErr
deriving DecidableEq, Repr

/-- Everything `UpdateRepo` consults about the outside world, in program
order.  `statNewVersionDir` is the status of the new version's source
directory; note that the validation code at `update_repo.go` lines
127-145 never consults it (it stats `filesDir` a second time). -/
structure World where
  statRepoDir : StatRes
  statFilesDir : StatRes
  statNewVersionDir : StatRes
  readIndex : ReadRes
  newVersionMD5s : Option (List FileMD5)
  fileStorageMD5s : Option (List FileMD5)
  disk : List Str
  srcOpenFails : Str → Bool
  createFails : Str → Bool
  manifestExists : Bool
  manifestCreate : OpenRes
  indexOpen : OpenRes

/-- The writes `UpdateRepo` performed: blob names created in storage, the
version manifest written (if any), and the index written (if any). -/
structure Effects where
  blobsCreated : List Str
  manifestWritten : Option Version
  indexWritten : Option Index
deriving DecidableEq, Repr

/-- No writes at all. -/
def Effects.none : Effects := { blobsCreated := [], manifestWritten := Option.none, indexWritten := Option.none }

/-- The publish pipeline of `update_repo.go` lines 81-310, step by step:
repository-directory validation (codes 10, 20, -2), file-storage
validation (11, 21, -2), the buggy second stat of `filesDir` standing in
for the new version directory (12, 22, -2), index read (13, 23, -2),
unmarshal (12), MD5 walks (30, 31), diff and copy loop (42, 43), manifest
creation with exclusive create (44 when the version file exists, else 45
or -2), and the final index write (45 or -2 on open failure). -/
def updateRepo (w : World) (urlBase : Str) (versionName : String) (versionId : Int) :
    Except Int Unit × Effects :=
  let urlBase2 := normalizeUrlBase urlBase
  match w.statRepoDir with
  | StatRes.notExist => (Except.error 10, Effects.none)
  | StatRes.permDenied => (Except.error 20, Effects.none)
  | StatRes.otherErr => (Except.error (-2), Effects.none)
  | StatRes.notDir => (Except.error 10, Effects.none)
  | StatRes.isDir =>
  match w.statFilesDir with
  | StatRes.notExist => (Except.error 11, Effects.none)
  | StatRes.permDenied => (Except.error 21, Effects.none)
  | StatRes.otherErr => (Except.error (-2), Effects.none)
  | StatRes.notDir => (Except.error 11, Effects.none)
  | StatRes.isDir =>
  match w.statFilesDir with
  | StatRes.notExist => (Except.error 12, Effects.none)
  | StatRes.permDenied => (Except.error 22, Effects.none)
  | StatRes.otherErr => (Except.error (-2), Effects.none)
  | StatRes.notDir => (Except.error 12, Effects.none)
  | StatRes.isDir =>
  match w.readIndex with
  | ReadRes.notExist => (Except.error 13, Effects.none)
  | ReadRes.permDenied => (Except.error 23, Effects.none)
  | ReadRes.otherErr => (Except.error (-2), Effects.none)
  | ReadRes.ok parsed =>
  match parsed with
  | Option.none => (Except.error 12, Effects.none)
  | Option.some indexData =>
  match w.newVersionMD5s with
  | Option.none => (Except.error 30, Effects.none)
  | Option.some newVersionMD5s =>
  match w.fileStorageMD5s with
  | Option.none => (Except.error 31, Effects.none)
  | Option.some fileStorageMD5s =>
  let diff := computeDiff newVersionMD5s fileStorageMD5s w.disk
  match copyFiles w.disk w.srcOpenFails w.createFails diff.2 [] with
  | Except.error ec =>
      (Except.error ec.1,
       { blobsCreated := ec.2, manifestWritten := Option.none, indexWritten := Option.none })
  | Except.ok created =>
  let versionData := buildVersion versionId versionName urlBase2 (diff.1 ++ diff.2)
  let indexData2 := { indexData with
    versions := indexData.versions ++ [{ id := versionId, name := versionName }] }
  if w.manifestExists then
    (Except.error 44,
     { blobsCreated := created, manifestWritten := Option.none, indexWritten := Option.none })
  else
  match w.manifestCreate with
  | OpenRes.permDenied =>
      (Except.error 45,
       { blobsCreated := created, manifestWritten := Option.none, indexWritten := Option.none })
  | OpenRes.otherErr =>
      (Except.error (-2),
       { blobsCreated := created, manifestWritten := Option.none, indexWritten := Option.none })
  | OpenRes.ok =>
  match w.indexOpen with
  | OpenRes.permDenied =>
      (Except.error 45,
       { blobsCreated := created, manifestWritten := Option.some versionData,
         indexWritten := Option.none })
  | OpenRes.otherErr =>
      (Except.error (-2),
       { blobsCreated := created, manifestWritten := Option.some versionData,
         indexWritten := Option.none })
  | OpenRes.ok =>
      (Except.ok (),
       { blobsCreated := created, manifestWritten := Option.some versionData,
         indexWritten := Option.some indexData2 })

/-- The write primitive used for the final index write by `UpdateRepo`
(`update_repo.go` lines 292-307) and by `CreateChan` (`mkchan.go` lines
113-128): the file is opened with `os.O_RDWR` — without `O_TRUNC` — and
the new bytes are written from offset 0, so any tail of the old content
beyond the new length survives.  (`SetChan` instead opens with
`O_WRONLY|O_TRUNC`, which replaces the content.) -/
def writeNoTrunc (old new : Str) : Str := new ++ old.drop new.length

/-- A world in which the repository and file-storage directories are
valid, the index parses, the manifest slot is free — but the new
version's source directory does not exist, so the recursive MD5 walk of
it fails. -/
def sourceDirMissingWorld : World :=
  { statRepoDir := StatRes.isDir
    statFilesDir := StatRes.isDir
    statNewVersionDir := StatRes.notExist
    readIndex := ReadRes.ok (Option.some { channels := [], versions := [] })
    newVersionMD5s := Option.none
    fileStorageMD5s := Option.some []
    disk := []
    srcOpenFails := fun _ => false
    createFails := fun _ => false
    manifestExists := false
    manifestCreate := OpenRes.ok
    indexOpen := OpenRes.ok }

/-! ## Lemmas about the channel operations -/

theorem setChannels_no_match (l : List Channel) (chanId : String) (vid : Int)
    (h : ∀ c ∈ l, c.id ≠ chanId) :
    setChannels l chanId vid = l ++ [{ id := chanId, name := chanId, currentVersion := vid }] := by
  induction l with
  | nil => rfl
  | cons a t ih =>
    have ha : a.id ≠ chanId := h a (List.mem_cons_self a t)
    simp only [setChannels, if_neg ha, List.cons_append, List.cons.injEq, true_and]
    exact ih fun c hc => h c (List.mem_cons_of_mem a hc)

theorem setChannels_decomp (pre : List Channel) (c : Channel) (post : List Channel)
    (chanId : String) (vid : Int) (hc : c.id = chanId)
    (hpre : ∀ c2 ∈ pre, c2.id ≠ chanId) :
    setChannels (pre ++ c :: post) chanId vid =
      pre ++ (if vid < 0 then post else { c with currentVersion := vid } :: post) := by
  induction pre with
  | nil => simp [setChannels, hc]
  | cons p pr ih =>
    have hp : p.id ≠ chanId := hpre p (List.mem_cons_self p pr)
    simp only [List.cons_append, setChannels, if_neg hp, List.cons.injEq, true_and]
    exact ih fun c2 hc2 => hpre c2 (List.mem_cons_of_mem p hc2)

/-- C8: the channel-set operation creates the channel when absent,
updates only the matched channel's current version when present and the
version ID is non-negative, and removes the channel entirely when the
version ID is negative; the version-summary list is never touched. -/
theorem setChan_semantics (idx : Index) (chanId : String) (vid : Int) :
    ((∀ c ∈ idx.channels, c.id ≠ chanId) →
      setChanIndex idx chanId vid =
        { channels := idx.channels ++ [{ id := chanId, name := chanId, currentVersion := vid }],
          versions := idx.versions }) ∧
    (∀ pre c post, idx.channels = pre ++ c :: post → c.id = chanId →
      (∀ c2 ∈ pre, c2.id ≠ chanId) →
      (0 ≤ vid →
        setChanIndex idx chanId vid =
          { channels := pre ++ { c with currentVersion := vid } :: post,
            versions := idx.versions }) ∧
      (vid < 0 →
        setChanIndex idx chanId vid = { channels := pre ++ post, versions := idx.versions } ∧
        ((∀ c2 ∈ post, c2.id ≠ chanId) →
          ∀ c2 ∈ (setChanIndex idx chanId vid).channels, c2.id ≠ chanId))) := by
  constructor
  · intro hno
    simp [setChanIndex, setChannels_no_match idx.channels chanId vid hno]
  · intro pre c post hdec hc hpre
    constructor
    · intro hvid
      have hnlt : ¬ vid < 0 := by omega
      simp [setChanIndex, hdec, setChannels_decomp pre c post chanId vid hc hpre, if_neg hnlt]
    · intro hvid
      have heq : setChanIndex idx chanId vid = { channels := pre ++ post, versions := idx.versions } := by
        simp [setChanIndex, hdec, setChannels_decomp pre c post chanId vid hc hpre, if_pos hvid]
      refine ⟨heq, ?_⟩
      intro hpost c2 hc2
      rw [heq] at hc2
      simp only [List.mem_append] at hc2
      rcases hc2 with h2 | h2
      · exact hpre c2 h2
      · exact hpost c2 h2

/-- Witness for `setChan_semantics` at a concrete index. -/
theorem setChan_semantics_witness :
    setChanIndex { channels := [{ id := "a", name := "stable", currentVersion := 1 }],
                   versions := [] } "a" 5 =
      { channels := [{ id := "a", name := "stable", currentVersion := 5 }], versions := [] } := by
  have h := (setChan_semantics
    { channels := [{ id := "a", name := "stable", currentVersion := 1 }], versions := [] }
    "a" 5).2 [] { id := "a", name := "stable", currentVersion := 1 } [] rfl rfl
    (by intro c2 hc2; simp at hc2)
  simpa using h.1 (by omega)

/-- C10: with a negative version ID and no existing channel of that ID,
`SetChan` does not leave the channel list unchanged: it appends a new
channel carrying the negative version ID. -/
theorem setChan_negative_creates (idx : Index) (chanId : String) (vid : Int)
    (hno : ∀ c ∈ idx.channels, c.id ≠ chanId) (_hneg : vid < 0) :
    setChanIndex idx chanId vid =
      { channels := idx.channels ++ [{ id := chanId, name := chanId, currentVersion := vid }],
        versions := idx.versions } ∧
    (setChanIndex idx chanId vid).channels ≠ idx.channels := by
  have heq : setChanIndex idx chanId vid =
      { channels := idx.channels ++ [{ id := chanId, name := chanId, currentVersion := vid }],
        versions := idx.versions } := by
    simp [setChanIndex, setChannels_no_match idx.channels chanId vid hno]
  refine ⟨heq, ?_⟩
  rw [heq]
  intro hcontra
  have := congrArg List.length hcontra
  simp at this

/-- Witness for `setChan_negative_creates`: removing the absent channel
"beta" from an empty channel list appends it instead. -/
theorem setChan_negative_creates_witness :
    setChanIndex { channels := [], versions := [] } "beta" (-1) =
      { channels := [{ id := "beta", name := "beta", currentVersion := -1 }], versions := [] } ∧
    (setChanIndex { channels := [], versions := [] } "beta" (-1)).channels ≠ [] := by
  have h := setChan_negative_creates { channels := [], versions := [] } "beta" (-1)
    (by intro c hc; simp at hc) (by omega)
  simpa using h

/-- C9 (amended): `CreateChan` fails with exit code 42 when a channel
with the given ID exists (performing no index mutation), and otherwise
appends a channel whose ID and name are the given ID and whose
`currentVersion` field is the Go zero value 0 — not a negative value. -/
theorem createChan_spec (idx : Index) (chanId : String) :
    (idx.channels.any (fun c => c.id = chanId) = true →
      createChanIndex idx chanId = Except.error 42) ∧
    (idx.channels.any (fun c => c.id = chanId) = false →
      createChanIndex idx chanId = Except.ok
        { channels := idx.channels ++ [{ id := chanId, name := chanId, currentVersion := 0 }],
          versions := idx.versions }) := by
  constructor
  · intro hex
    simp [createChanIndex, hex]
  · intro hni
    simp only [createChanIndex, hni]
    rfl

/-- Witness for `createChan_spec` on an empty index. -/
theorem createChan_spec_witness :
    createChanIndex { channels := [], versions := [] } "dev" = Except.ok
      { channels := [{ id := "dev", name := "dev", currentVersion := 0 }], versions := [] } :=
  (createChan_spec { channels := [], versions := [] } "dev").2 rfl

/-- C9 counterexample: the channel appended by `CreateChan` has
`currentVersion = 0`, which is not negative (and, being an integer field
of the record, not absent), so the created channel does not satisfy the
"currentVersion absent or negative" description of an unpinned channel. -/
theorem createChan_zero_version_cex :
    createChanIndex { channels := [], versions := [] } "stable" = Except.ok
      { channels := [{ id := "stable", name := "stable", currentVersion := 0 }], versions := [] } ∧
    ¬ ((0 : Int) < 0) := by
  exact ⟨rfl, by omega⟩

/-- C6: the failing input — repository and storage directories are fine,
the new-version source directory is missing — does not fail validation
with the source-directory-invalid code 12; `UpdateRepo` stats `filesDir`
a second time instead of `newVersionDir`, passes validation, and only
fails later when the MD5 walk of the missing directory errors (code 30). -/
theorem updateRepo_source_dir_bug :
    sourceDirMissingWorld.statNewVersionDir = StatRes.notExist ∧
    updateRepo sourceDirMissingWorld [] "" 1 = (Except.error 30, Effects.none) ∧
    (30 : Int) ≠ 12 := by
  refine ⟨rfl, rfl, by omega⟩

/-- C7: writing the serialized index through the no-truncate primitive
used by `UpdateRepo` and `CreateChan` does not leave the file equal to
the serialization when the previous content was longer: the old tail
survives. -/
theorem writeNoTrunc_not_exact :
    writeNoTrunc ('0' :: '1' :: '2' :: '3' :: '4' :: '5' :: '6' :: '7' :: '8' :: '9' :: [])
        ('a' :: 'b' :: 'c' :: []) =
      'a' :: 'b' :: 'c' :: '3' :: '4' :: '5' :: '6' :: '7' :: '8' :: '9' :: [] ∧
    writeNoTrunc ('0' :: '1' :: '2' :: '3' :: '4' :: '5' :: '6' :: '7' :: '8' :: '9' :: [])
        ('a' :: 'b' :: 'c' :: []) ≠ 'a' :: 'b' :: 'c' :: [] := by
  exact ⟨by decide, by decide⟩

/-! ## The orchestrator claims -/

/-- A world for a publish that sails through every step up to manifest
creation, where the version's manifest file already exists. -/
def versionExistsWorld : World :=
  { statRepoDir := StatRes.isDir
    statFilesDir := StatRes.isDir
    statNewVersionDir := StatRes.isDir
    readIndex := ReadRes.ok (Option.some { channels := [], versions := [] })
    newVersionMD5s := Option.some []
    fileStorageMD5s := Option.some []
    disk := []
    srcOpenFails := fun _ => false
    createFails := fun _ => false
    manifestExists := true
    manifestCreate := OpenRes.ok
    indexOpen := OpenRes.ok }

/-- A world in which the repository directory is missing, so the publish
fails at the very first validation step. -/
def repoMissingWorld : World :=
  { statRepoDir := StatRes.notExist
    statFilesDir := StatRes.isDir
    statNewVersionDir := StatRes.isDir
    readIndex := ReadRes.ok (Option.some { channels := [], versions := [] })
    newVersionMD5s := Option.some []
    fileStorageMD5s := Option.some []
    disk := []
    srcOpenFails := fun _ => false
    createFails := fun _ => false
    manifestExists := false
    manifestCreate := OpenRes.ok
    indexOpen := OpenRes.ok }

/-- C1: when the version's manifest file already exists and the publish
reaches the manifest-creation step (validation, index load, hashing and
blob copies all succeed), `UpdateRepo` fails with exit code 44
("Version already exists"), writes nothing to the pre-existing manifest
file (the exclusive create fails without touching it) and never writes
the index file. -/
theorem updateRepo_version_already_exists (w : World) (u : Str) (vn : String) (vid : Int)
    (idx : Index) (nv fs : List FileMD5) (created : List Str)
    (h1 : w.statRepoDir = StatRes.isDir) (h2 : w.statFilesDir = StatRes.isDir)
    (h3 : w.readIndex = ReadRes.ok (Option.some idx))
    (h4 : w.newVersionMD5s = Option.some nv) (h5 : w.fileStorageMD5s = Option.some fs)
    (h6 : copyFiles w.disk w.srcOpenFails w.createFails (computeDiff nv fs w.disk).2 [] =
      Except.ok created)
    (h7 : w.manifestExists = true) :
    updateRepo w u vn vid =
      (Except.error 44,
       { blobsCreated := created, manifestWritten := Option.none,
         indexWritten := Option.none }) := by
  simp only [updateRepo, h1, h2, h3, h4, h5, h6, h7, if_pos]

/-- Witness for `updateRepo_version_already_exists`. -/
theorem updateRepo_version_already_exists_witness :
    versionExistsWorld.manifestExists = true ∧
    updateRepo versionExistsWorld [] "" 1 =
      (Except.error 44,
       { blobsCreated := [], manifestWritten := Option.none, indexWritten := Option.none }) :=
  ⟨rfl, updateRepo_version_already_exists versionExistsWorld [] "" 1
    { channels := [], versions := [] } [] [] [] rfl rfl rfl rfl rfl rfl rfl⟩

/-- C2: whenever `UpdateRepo` fails — at validation, index load or parse,
hashing, blob copy, manifest construction or manifest creation, or even
at the final index write — the index file is never written; and the only
way a manifest can have been written while the index was not is a failure
of the final index-write open itself. -/
theorem updateRepo_failure_leaves_index (w : World) (u : Str) (vn : String) (vid : Int)
    (c : Int) (res : Except Int Unit) (eff : Effects)
    (hrun : updateRepo w u vn vid = (res, eff)) (herr : res = Except.error c) :
    eff.indexWritten = Option.none ∧
    (eff.manifestWritten ≠ Option.none → w.indexOpen ≠ OpenRes.ok) := by
  subst herr
  simp only [updateRepo] at hrun
  repeat' split at hrun
  all_goals simp only [Prod.mk.injEq] at hrun
  all_goals obtain ⟨hceq, heff⟩ := hrun
  all_goals subst heff
  all_goals simp_all [Effects.none]

/-- Witness for `updateRepo_failure_leaves_index` at a failing world. -/
theorem updateRepo_failure_leaves_index_witness :
    Effects.none.indexWritten = Option.none ∧
    (Effects.none.manifestWritten ≠ Option.none → repoMissingWorld.indexOpen ≠ OpenRes.ok) :=
  updateRepo_failure_leaves_index repoMissingWorld [] "" 1 10
    (Except.error 10) Effects.none rfl rfl

/-! ## The collision loop: termination, freshness, probe bound -/

/-- `prefixSize` after `k` iterations of the collision loop. -/
def psAt (k : Nat) : Nat := min (4 + k) 32

/-- `prefixNum` after `k` iterations of the collision loop. -/
def pnAt (k : Nat) : Int := if 4 + k ≤ 32 then -1 else ((4 + k : Nat) : Int) - 33

/-- The candidate storage name probed at iteration `k`. -/
def candAt (h base : Str) (k : Nat) : Str := mkName h base (psAt k) (pnAt k)

theorem psAt_pnAt_step (k : Nat) :
    (if psAt k < 32 then psAt k + 1 else psAt k) = psAt (k + 1) ∧
    (if psAt k < 32 then pnAt k else pnAt k + 1) = pnAt (k + 1) := by
  unfold psAt pnAt
  constructor
  · split_ifs <;> omega
  · split_ifs <;> push_cast <;> omega

theorem candAt_of_le (h base : Str) (k : Nat) (hk : 4 + k ≤ 32) :
    candAt h base k = h.take (4 + k) ++ '-' :: base := by
  have h1 : psAt k = 4 + k := by unfold psAt; omega
  have h2 : pnAt k = -1 := by unfold pnAt; rw [if_pos hk]
  simp only [candAt, h1, h2, mkName]
  norm_num

theorem candAt_of_ge (h base : Str) (k : Nat) (hk : 29 ≤ k) :
    candAt h base k = h.take 32 ++ '-' :: Nat.toDigits 10 (k - 29) ++ '-' :: base := by
  have h1 : psAt k = 32 := by unfold psAt; omega
  have h2 : pnAt k = ((k : Nat) : Int) - 29 := by
    unfold pnAt
    rw [if_neg (by omega)]
    push_cast
    ring
  have h3 : ¬ (((k : Nat) : Int) - 29 < 0) := by omega
  have h4 : (((k : Nat) : Int) - 29).toNat = k - 29 := by omega
  simp only [candAt, h1, h2, mkName, if_neg h3, h4]

theorem candAt_length_of_le (h base : Str) (hlen : h.length = 32) (k : Nat)
    (hk : 4 + k ≤ 32) : (candAt h base k).length = 5 + k + base.length := by
  rw [candAt_of_le h base k hk]
  simp only [List.length_append, List.length_cons, List.length_take, hlen]
  omega

theorem candAt_length_of_ge (h base : Str) (hlen : h.length = 32) (k : Nat)
    (hk : 29 ≤ k) : 35 + base.length ≤ (candAt h base k).length := by
  rw [candAt_of_ge h base k hk]
  have hd := one_le_length_toDigits (k - 29)
  simp only [List.length_append, List.length_cons, List.length_take, hlen]
  omega

theorem candAt_ne_of_lt (h base : Str) (hlen : h.length = 32) {k1 k2 : Nat}
    (hlt : k1 < k2) : candAt h base k1 ≠ candAt h base k2 := by
  intro heq
  by_cases hc2 : 4 + k2 ≤ 32
  · have hc1 : 4 + k1 ≤ 32 := by omega
    have l1 := candAt_length_of_le h base hlen k1 hc1
    have l2 := candAt_length_of_le h base hlen k2 hc2
    rw [heq, l2] at l1
    omega
  · by_cases hc1 : 4 + k1 ≤ 32
    · have l1 := candAt_length_of_le h base hlen k1 hc1
      have l2 := candAt_length_of_ge h base hlen k2 (by omega)
      rw [heq] at l1
      omega
    · have h29a : 29 ≤ k1 := by omega
      have h29b : 29 ≤ k2 := by omega
      rw [candAt_of_ge h base k1 h29a, candAt_of_ge h base k2 h29b] at heq
      have heq2 := List.append_cancel_right heq
      have heq3 := List.append_cancel_left heq2
      have hD : Nat.toDigits 10 (k1 - 29) = Nat.toDigits 10 (k2 - 29) := by
        injection heq3
      have := toDigits_injective hD
      omega

theorem exists_fresh_cand (disk : List Str) (h base : Str) (hlen : h.length = 32) :
    ∃ j, j < disk.length + 1 ∧ candAt h base j ∉ disk := by
  by_contra hall
  push_neg at hall
  have hinj : ∀ x ∈ List.range (disk.length + 1), ∀ y ∈ List.range (disk.length + 1),
      candAt h base x = candAt h base y → x = y := by
    intro x _ y _ hxy
    by_contra hne
    rcases Nat.lt_or_ge x y with hlt | hge
    · exact candAt_ne_of_lt h base hlen hlt hxy
    · have hlt : y < x := by omega
      exact candAt_ne_of_lt h base hlen hlt hxy.symm
  have hnd : ((List.range (disk.length + 1)).map (candAt h base)).Nodup :=
    (List.nodup_range _).map_on hinj
  have hsub : (List.range (disk.length + 1)).map (candAt h base) ⊆ disk := by
    intro a ha
    simp only [List.mem_map, List.mem_range] at ha
    obtain ⟨j, hj, rfl⟩ := ha
    exact hall j hj
  have hle := (List.Nodup.subperm hnd hsub).length_le
  simp at hle

theorem nameLoopGo_sound (disk : List Str) (h base : Str) :
    ∀ fuel ps pn name n c, nameLoopGo disk h base fuel ps pn name = some (n, c) →
      n ∉ disk ∧ c ≤ fuel := by
  intro fuel
  induction fuel with
  | zero =>
    intro ps pn name n c he
    simp [nameLoopGo] at he
  | succ f ih =>
    intro ps pn name n c he
    simp only [nameLoopGo] at he
    split at he
    · split at he
      · exact absurd he (by simp)
      · rename_i n2 heq2
        simp only [Option.some.injEq, Prod.mk.injEq] at he
        obtain ⟨hn, hc⟩ := he
        obtain ⟨hmem2, hle2⟩ := ih _ _ _ _ _ heq2
        subst hn
        constructor
        · exact hmem2
        · omega
    · simp only [Option.some.injEq, Prod.mk.injEq] at he
      obtain ⟨hn, hc⟩ := he
      subst hn
      rename_i hnotmem
      constructor
      · exact hnotmem
      · omega

theorem nameLoopGo_total (disk : List Str) (h base : Str) :
    ∀ fuel k, (∃ j, j < fuel ∧ candAt h base (k + j) ∉ disk) →
      ∃ r, nameLoopGo disk h base fuel (psAt k) (pnAt k) (candAt h base k) = some r := by
  intro fuel
  induction fuel with
  | zero =>
    rintro k ⟨j, hj, _⟩
    omega
  | succ f ih =>
    rintro k ⟨j, hj, hfree⟩
    by_cases hmem : candAt h base k ∈ disk
    · have hj0 : j ≠ 0 := by
        rintro rfl
        simp only [Nat.add_zero] at hfree
        exact hfree hmem
      obtain ⟨r, hr⟩ := ih (k + 1) ⟨j - 1, by omega, by
        have hkj : k + 1 + (j - 1) = k + j := by omega
        rw [hkj]
        exact hfree⟩
      obtain ⟨n, c⟩ := r
      refine ⟨(n, c + 1), ?_⟩
      simp only [nameLoopGo, if_pos hmem]
      rcases psAt_pnAt_step k with ⟨hps, hpn⟩
      rw [hps, hpn]
      have hcand : mkName h base (psAt (k + 1)) (pnAt (k + 1)) = candAt h base (k + 1) := rfl
      rw [hcand, hr]
    · refine ⟨(candAt h base k, 1), ?_⟩
      simp only [nameLoopGo, if_neg hmem]

theorem assignNameRes_spec (disk : List Str) (h base : Str) (hlen : h.length = 32) :
    ∃ n c, assignNameRes disk h base = some (n, c) ∧ n ∉ disk ∧ c ≤ disk.length + 1 := by
  obtain ⟨j, hj, hfree⟩ := exists_fresh_cand disk h base hlen
  obtain ⟨r, hr⟩ := nameLoopGo_total disk h base (disk.length + 1) 0
    ⟨j, hj, by simpa using hfree⟩
  have hbr : assignNameRes disk h base =
      nameLoopGo disk h base (disk.length + 1) (psAt 0) (pnAt 0) (candAt h base 0) := by
    unfold assignNameRes candAt psAt pnAt
    norm_num
  obtain ⟨n, c⟩ := r
  obtain ⟨hnmem, hc⟩ := nameLoopGo_sound disk h base _ _ _ _ _ _ hr
  exact ⟨n, c, by rw [hbr, hr], hnmem, hc⟩

theorem assignName_not_mem (disk : List Str) (h base : Str) (hlen : h.length = 32) :
    assignName disk h base ∉ disk := by
  obtain ⟨n, c, hres, hnmem, _⟩ := assignNameRes_spec disk h base hlen
  unfold assignName
  rw [hres]
  exact hnmem

theorem assignSeq_nodup_fresh :
    ∀ (files : List (Str × Str)) (disk : List Str),
      (∀ p ∈ files, p.1.length = 32) →
      (assignSeq files disk).Nodup ∧ ∀ n ∈ assignSeq files disk, n ∉ disk := by
  intro files
  induction files with
  | nil =>
    intro disk _
    simp [assignSeq]
  | cons f rest ih =>
    intro disk hall
    have hf : f.1.length = 32 := hall f (List.mem_cons_self f rest)
    have hfresh : assignName disk f.1 f.2 ∉ disk := assignName_not_mem disk f.1 f.2 hf
    obtain ⟨hnd, hmem⟩ := ih (disk ++ [assignName disk f.1 f.2])
      (fun p hp => hall p (List.mem_cons_of_mem f hp))
    simp only [assignSeq]
    refine ⟨List.Nodup.cons ?_ hnd, ?_⟩
    · intro hmem2
      have hni := hmem _ hmem2
      simp at hni
    · intro n hn
      rcases List.mem_cons.mp hn with rfl | hn2
      · exact hfresh
      · have hni := hmem n hn2
        simp only [List.mem_append, List.mem_singleton] at hni
        push_neg at hni
        exact hni.1

/-- C5 (amended): the collision loop terminates for every input with a
32-character hash; the name it settles on is absent from the existing
storage entries and is found within at most `hash length + N` probes
(indeed within `N + 1`, `N` the number of existing entries); hence `N`
colliding files processed sequentially — each materialized in storage
before the next one is probed, as happens across successive publishes —
receive `N` pairwise-distinct storage names. -/
theorem collision_loop_resolution (disk : List Str) (h base : Str)
    (files : List (Str × Str)) (hlen : h.length = 32)
    (hfiles : ∀ p ∈ files, p.1.length = 32) :
    (∃ n c, assignNameRes disk h base = some (n, c) ∧ n ∉ disk ∧ c ≤ 32 + disk.length) ∧
    (assignSeq files disk).Nodup ∧ (∀ n ∈ assignSeq files disk, n ∉ disk) := by
  obtain ⟨n, c, hres, hnmem, hc⟩ := assignNameRes_spec disk h base hlen
  obtain ⟨hnd, hmem⟩ := assignSeq_nodup_fresh files disk hfiles
  exact ⟨⟨n, c, hres, hnmem, by omega⟩, hnd, hmem⟩

/-- The all-zero MD5 string, 32 characters. -/
def md5Zero : Str := List.replicate 32 '0'

/-- An MD5 starting with "aaaa", remainder zeros. -/
def md5A : Str := 'a' :: 'a' :: 'a' :: 'a' :: List.replicate 28 '0'

/-- A different MD5 also starting with "aaaa", remainder ones. -/
def md5B : Str := 'a' :: 'a' :: 'a' :: 'a' :: List.replicate 28 '1'

/-- Witness for `collision_loop_resolution`: two files with the same
content hash assigned sequentially still receive distinct fresh names. -/
theorem collision_loop_resolution_witness :
    md5Zero.length = 32 ∧
    ((∃ n c, assignNameRes [] md5Zero ('a' :: []) = some (n, c) ∧ n ∉ ([] : List Str) ∧
        c ≤ 32 + ([] : List Str).length) ∧
      (assignSeq [(md5Zero, 'a' :: []), (md5Zero, 'b' :: [])] []).Nodup ∧
      (∀ n ∈ assignSeq [(md5Zero, 'a' :: []), (md5Zero, 'b' :: [])] [], n ∉ ([] : List Str))) :=
  ⟨by decide,
   collision_loop_resolution [] md5Zero ('a' :: [])
     [(md5Zero, 'a' :: []), (md5Zero, 'b' :: [])] (by decide) (by decide)⟩

/-- C5 counterexample: two distinct files in the same publish whose
truncated-hash-plus-basename names collide are probed against the same
unchanged directory, so the store assigns them the very same storage
name — the assigned names are not pairwise distinct. -/
theorem collision_batch_not_distinct_cex :
    md5A ≠ md5B ∧
    md5A.take 4 = md5B.take 4 ∧
    basename ('x' :: '/' :: 'a' :: []) = basename ('y' :: '/' :: 'a' :: []) ∧
    ¬ (((computeDiff [{ path := 'x' :: '/' :: 'a' :: [], md5 := md5A },
                      { path := 'y' :: '/' :: 'a' :: [], md5 := md5B }] [] []).2.map
          StorageData.fileStoragePath).Nodup) := by
  refine ⟨by decide, by decide, by decide, by decide⟩

/-! ## Dedup matching lemmas -/

theorem findMatch_md5 :
    ∀ (l : List FileMD5) (h : Str) (e : FileMD5), findMatch l h = some e → e.md5 = h := by
  intro l
  induction l with
  | nil =>
    intro h e he
    simp [findMatch] at he
  | cons a t ih =>
    intro h e he
    simp only [findMatch] at he
    split at he
    · rename_i ha
      obtain rfl : a = e := by injection he
      exact ha
    · exact ih h e he

theorem findMatch_append_some (l l2 : List FileMD5) (h : Str) (e : FileMD5)
    (he : findMatch l h = some e) : findMatch (l ++ l2) h = some e := by
  induction l with
  | nil => simp [findMatch] at he
  | cons a t ih =>
    simp only [findMatch] at he ⊢
    split at he
    · rename_i ha
      rw [if_pos ha]
      exact he
    · rename_i ha
      rw [if_neg ha]
      exact ih he

theorem findMatch_append_none (l l2 : List FileMD5) (h : Str)
    (he : findMatch l h = none) : findMatch (l ++ l2) h = findMatch l2 h := by
  induction l with
  | nil => simp
  | cons a t ih =>
    simp only [findMatch] at he
    split at he
    · exact absurd he (by simp)
    · rename_i ha
      rw [List.cons_append]
      simp only [findMatch, if_neg ha]
      exact ih he

theorem findMatch_of_mem_nodup (l : List FileMD5) (e : FileMD5)
    (hnd : (l.map FileMD5.md5).Nodup) (hmem : e ∈ l) : findMatch l e.md5 = some e := by
  induction l with
  | nil => simp at hmem
  | cons a t ih =>
    rw [List.map_cons, List.nodup_cons] at hnd
    obtain ⟨hna, hndt⟩ := hnd
    simp only [findMatch]
    by_cases ha : a.md5 = e.md5
    · rw [if_pos ha]
      rcases List.mem_cons.mp hmem with rfl | het
      · rfl
      · exact absurd (ha ▸ List.mem_map_of_mem FileMD5.md5 het) hna
    · rw [if_neg ha]
      rcases List.mem_cons.mp hmem with rfl | het
      · exact absurd rfl ha
      · exact ih hndt het

theorem hackList_of_ne_nil {l : List FileMD5} (h : l ≠ []) : hackList l = l := by
  unfold hackList
  rw [if_neg]
  simpa using h

theorem processFile_inl_inv (fsl : List FileMD5) (disk : List Str) (nv : FileMD5)
    (sd : StorageData) (h : processFile fsl disk nv = Sum.inl sd) :
    ∃ e, findMatch fsl nv.md5 = some e ∧
      sd = { fileStoragePath := e.path, installPath := nv.path, md5 := e.md5 } := by
  unfold processFile at h
  cases hm : findMatch fsl nv.md5 with
  | none =>
    rw [hm] at h
    simp at h
  | some e =>
    rw [hm] at h
    refine ⟨e, rfl, ?_⟩
    injection h with h2
    exact h2.symm

theorem processFile_inr_inv (fsl : List FileMD5) (disk : List Str) (nv : FileMD5)
    (sd : StorageData) (h : processFile fsl disk nv = Sum.inr sd) :
    findMatch fsl nv.md5 = none ∧
    sd = { fileStoragePath := assignName disk nv.md5 (basename nv.path),
           installPath := nv.path, md5 := nv.md5 } := by
  unfold processFile at h
  cases hm : findMatch fsl nv.md5 with
  | none =>
    rw [hm] at h
    refine ⟨rfl, ?_⟩
    injection h with h2
    exact h2.symm
  | some e =>
    rw [hm] at h
    simp at h

/-- C4 (amended): when the common content hash of two incoming files has
a matching storage entry, both files resolve to that first matching
entry's storage name — the same name. -/
theorem equal_hash_same_name (fsl : List FileMD5) (disk : List Str) (a b e : FileMD5)
    (hab : a.md5 = b.md5) (he : findMatch fsl a.md5 = some e) :
    processFile fsl disk a =
      Sum.inl { fileStoragePath := e.path, installPath := a.path, md5 := e.md5 } ∧
    processFile fsl disk b =
      Sum.inl { fileStoragePath := e.path, installPath := b.path, md5 := e.md5 } ∧
    resolvedName fsl disk a = resolvedName fsl disk b := by
  have heb : findMatch fsl b.md5 = some e := by rw [← hab]; exact he
  refine ⟨?_, ?_, ?_⟩
  · unfold processFile
    rw [he]
  · unfold processFile
    rw [heb]
  · unfold resolvedName processFile
    rw [he, heb]

/-- Witness for `equal_hash_same_name`: two files with the hash of an
existing storage blob both resolve to that blob's name. -/
theorem equal_hash_same_name_witness :
    (FileMD5.mk ('a' :: []) md5Zero).md5 = (FileMD5.mk ('b' :: []) md5Zero).md5 ∧
    (processFile [{ path := 's' :: [], md5 := md5Zero }] [] (FileMD5.mk ('a' :: []) md5Zero) =
        Sum.inl { fileStoragePath := 's' :: [], installPath := 'a' :: [], md5 := md5Zero } ∧
      processFile [{ path := 's' :: [], md5 := md5Zero }] [] (FileMD5.mk ('b' :: []) md5Zero) =
        Sum.inl { fileStoragePath := 's' :: [], installPath := 'b' :: [], md5 := md5Zero } ∧
      resolvedName [{ path := 's' :: [], md5 := md5Zero }] [] (FileMD5.mk ('a' :: []) md5Zero) =
        resolvedName [{ path := 's' :: [], md5 := md5Zero }] [] (FileMD5.mk ('b' :: []) md5Zero)) :=
  ⟨rfl, equal_hash_same_name [{ path := 's' :: [], md5 := md5Zero }] []
    (FileMD5.mk ('a' :: []) md5Zero) (FileMD5.mk ('b' :: []) md5Zero)
    { path := 's' :: [], md5 := md5Zero } rfl (by decide)⟩

/-- C4 counterexample: two files with equal content hash, both new to the
store and processed in the same publish with different base names, are
assigned two different storage names — identical content then occupies
two blobs. -/
theorem equal_hash_distinct_names_cex :
    (FileMD5.mk ('a' :: []) md5Zero).md5 = (FileMD5.mk ('b' :: []) md5Zero).md5 ∧
    resolvedName (hackList []) [] (FileMD5.mk ('a' :: []) md5Zero) ≠
      resolvedName (hackList []) [] (FileMD5.mk ('b' :: []) md5Zero) := by
  refine ⟨rfl, by decide⟩

/-! ## Republish dedup (publishing the same tree twice) -/

theorem computeDiff_eq (nvList fsList : List FileMD5) (disk : List Str) :
    computeDiff nvList fsList disk =
      (nvList.filterMap (fun nv =>
         match processFile (hackList fsList) disk nv with
         | Sum.inl sd => some sd
         | Sum.inr _ => none),
       nvList.filterMap (fun nv =>
         match processFile (hackList fsList) disk nv with
         | Sum.inl _ => none
         | Sum.inr sd => some sd)) := by
  suffices haux : ∀ (l : List FileMD5) (acc : List StorageData × List StorageData),
      l.foldl (fun acc nv =>
        match processFile (hackList fsList) disk nv with
        | Sum.inl sd => (acc.1 ++ [sd], acc.2)
        | Sum.inr sd => (acc.1, acc.2 ++ [sd])) acc =
      (acc.1 ++ l.filterMap (fun nv =>
         match processFile (hackList fsList) disk nv with
         | Sum.inl sd => some sd
         | Sum.inr _ => none),
       acc.2 ++ l.filterMap (fun nv =>
         match processFile (hackList fsList) disk nv with
         | Sum.inl _ => none
         | Sum.inr sd => some sd)) by
    have hmain := haux nvList ([], [])
    simpa [computeDiff] using hmain
  intro l
  induction l with
  | nil =>
    intro acc
    simp
  | cons nv t ih =>
    intro acc
    simp only [List.foldl_cons, List.filterMap_cons]
    cases hp : processFile (hackList fsList) disk nv with
    | inl sd =>
      rw [ih]
      simp
    | inr sd =>
      rw [ih]
      simp

theorem computeDiff_snd_eq_nil (nvList fsList : List FileMD5) (disk : List Str)
    (hall : ∀ f ∈ nvList, ∃ sd, processFile (hackList fsList) disk f = Sum.inl sd) :
    (computeDiff nvList fsList disk).2 = [] := by
  rw [computeDiff_eq]
  simp only
  rw [List.filterMap_eq_nil_iff]
  intro f hf
  obtain ⟨sd, hsd⟩ := hall f hf
  rw [hsd]

theorem copyFiles_created (disk : List Str) (s c : Str → Bool) :
    ∀ (l : List StorageData) (acc created : List Str),
      copyFiles disk s c l acc = Except.ok created →
      created = acc ++ l.map StorageData.fileStoragePath := by
  intro l
  induction l with
  | nil =>
    intro acc created h
    simp only [copyFiles] at h
    injection h with h2
    simp [h2.symm]
  | cons m t ih =>
    intro acc created h
    simp only [copyFiles] at h
    split at h
    · exact absurd h (by simp)
    · split at h
      · exact absurd h (by simp)
      · have hrec := ih (acc ++ [m.fileStoragePath]) created h
        rw [hrec]
        simp

theorem filterMap_sublist_map {α β : Type} (g : α → Option β) (m : α → β)
    (hg : ∀ a b, g a = some b → b = m a) :
    ∀ l : List α, List.Sublist (l.filterMap g) (l.map m) := by
  intro l
  induction l with
  | nil => simp
  | cons a t ih =>
    rw [List.filterMap_cons, List.map_cons]
    cases hga : g a with
    | none => exact ih.cons (m a)
    | some b =>
      rw [hg a b hga]
      exact ih.cons₂ (m a)

/-- The `FileMD5` record the storage directory's MD5 walk would produce
for a freshly copied blob: its storage name and its content hash. -/
def storageEntry (sd : StorageData) : FileMD5 :=
  { path := sd.fileStoragePath, md5 := sd.md5 }

/-- The storage listing after the copy loop materialized the
`addToStorage` entries. -/
def storageAfter (storage0 : List FileMD5) (add : List StorageData) : List FileMD5 :=
  storage0 ++ add.map storageEntry

/-- The storage directory's file names after the copy loop. -/
def diskAfter (disk0 : List Str) (add : List StorageData) : List Str :=
  disk0 ++ add.map StorageData.fileStoragePath

theorem republish_processFile (tree storage0 : List FileMD5) (disk0 : List Str)
    (hnodup : (tree.map FileMD5.md5).Nodup)
    (hne : ∀ f ∈ tree, f.md5 ≠ [])
    (f : FileMD5) (hf : f ∈ tree) :
    processFile (hackList (storageAfter storage0 (computeDiff tree storage0 disk0).2))
      (diskAfter disk0 (computeDiff tree storage0 disk0).2) f =
    Sum.inl { fileStoragePath := resolvedName (hackList storage0) disk0 f,
              installPath := f.path, md5 := f.md5 } := by
  cases hp : processFile (hackList storage0) disk0 f with
  | inl sd =>
    obtain ⟨e, hfm, hsd⟩ := processFile_inl_inv _ _ _ _ hp
    by_cases hs0 : storage0 = []
    · exfalso
      subst hs0
      have hdum : findMatch [{ path := [], md5 := ([] : Str) }] f.md5 = some e := by
        simpa [hackList] using hfm
      simp only [findMatch] at hdum
      split at hdum
      · rename_i hmd
        exact hne f hf hmd.symm
      · exact absurd hdum (by simp)
    · have hfm0 : findMatch storage0 f.md5 = some e := by
        rwa [hackList_of_ne_nil hs0] at hfm
      have hemd5 : e.md5 = f.md5 := findMatch_md5 _ _ _ hfm0
      have hfm1 : findMatch
          (storage0 ++ ((computeDiff tree storage0 disk0).2.map storageEntry)) f.md5 = some e :=
        findMatch_append_some _ _ _ _ hfm0
      have hs1ne : storageAfter storage0 (computeDiff tree storage0 disk0).2 ≠ [] := by
        unfold storageAfter
        intro hcontra
        exact hs0 (List.append_eq_nil.mp hcontra).1
      rw [hackList_of_ne_nil hs1ne]
      simp only [resolvedName, hp]
      simp only [processFile, storageAfter, hfm1, hsd, hemd5]
  | inr sd =>
    obtain ⟨hfm, hsd⟩ := processFile_inr_inv _ _ _ _ hp
    have hfm0 : findMatch storage0 f.md5 = none := by
      by_cases hs0 : storage0 = []
      · subst hs0; rfl
      · rwa [hackList_of_ne_nil hs0] at hfm
    have hadd1g : (computeDiff tree storage0 disk0).2 = tree.filterMap (fun nv =>
        match processFile (hackList storage0) disk0 nv with
        | Sum.inl _ => none
        | Sum.inr sd2 => some sd2) := by
      rw [computeDiff_eq]
    have hsdmem : sd ∈ (computeDiff tree storage0 disk0).2 := by
      rw [hadd1g]
      rw [List.mem_filterMap]
      exact ⟨f, hf, by rw [hp]⟩
    have hentry : storageEntry sd ∈ (computeDiff tree storage0 disk0).2.map storageEntry :=
      List.mem_map_of_mem storageEntry hsdmem
    have hmd5s : List.Sublist
        (((computeDiff tree storage0 disk0).2.map storageEntry).map FileMD5.md5)
        (tree.map FileMD5.md5) := by
      rw [hadd1g, List.map_map, List.map_filterMap]
      apply filterMap_sublist_map
      intro a b hab
      cases hpa : processFile (hackList storage0) disk0 a with
      | inl sd2 =>
        rw [hpa] at hab
        simp at hab
      | inr sd2 =>
        rw [hpa] at hab
        obtain ⟨_, hsd2⟩ := processFile_inr_inv _ _ _ _ hpa
        injection hab with hab2
        subst hab2
        simp [Function.comp, storageEntry, hsd2]
    have hndnew : (((computeDiff tree storage0 disk0).2.map storageEntry).map FileMD5.md5).Nodup :=
      List.Nodup.sublist hmd5s hnodup
    have hfindnew : findMatch ((computeDiff tree storage0 disk0).2.map storageEntry)
        (storageEntry sd).md5 = some (storageEntry sd) :=
      findMatch_of_mem_nodup _ _ hndnew hentry
    have hsdmd5 : (storageEntry sd).md5 = f.md5 := by
      rw [hsd]
      rfl
    have hfm1 : findMatch
        (storage0 ++ ((computeDiff tree storage0 disk0).2.map storageEntry)) f.md5 =
        some (storageEntry sd) := by
      rw [findMatch_append_none _ _ _ hfm0, ← hsdmd5]
      exact hfindnew
    have hs1ne : storageAfter storage0 (computeDiff tree storage0 disk0).2 ≠ [] := by
      unfold storageAfter
      intro hcontra
      have hnil := (List.append_eq_nil.mp hcontra).2
      rw [hnil] at hentry
      simp at hentry
    rw [hackList_of_ne_nil hs1ne]
    simp only [resolvedName, hp]
    simp only [processFile, storageAfter, hfm1, hsd, storageEntry]

/-- C3 (amended): given a source tree whose files have pairwise-distinct
non-empty content hashes, once the first publish's new blobs are
materialized in storage, republishing the same tree resolves every file
by dedup match to the very storage name the first publish gave it, queues
nothing for copying, and leaves the storage directory's blob count
unchanged. -/
theorem republish_dedup (tree storage0 : List FileMD5) (disk0 : List Str)
    (hnodup : (tree.map FileMD5.md5).Nodup)
    (hne : ∀ f ∈ tree, f.md5 ≠ [])
    (_hok : ((computeDiff tree storage0 disk0).2.map StorageData.fileStoragePath).Nodup ∧
            ∀ n ∈ (computeDiff tree storage0 disk0).2.map StorageData.fileStoragePath,
              n ∉ disk0) :
    (∀ f ∈ tree,
      processFile (hackList (storageAfter storage0 (computeDiff tree storage0 disk0).2))
        (diskAfter disk0 (computeDiff tree storage0 disk0).2) f =
      Sum.inl { fileStoragePath := resolvedName (hackList storage0) disk0 f,
                installPath := f.path, md5 := f.md5 }) ∧
    (computeDiff tree (storageAfter storage0 (computeDiff tree storage0 disk0).2)
        (diskAfter disk0 (computeDiff tree storage0 disk0).2)).2 = [] ∧
    (diskAfter (diskAfter disk0 (computeDiff tree storage0 disk0).2)
        (computeDiff tree (storageAfter storage0 (computeDiff tree storage0 disk0).2)
          (diskAfter disk0 (computeDiff tree storage0 disk0).2)).2).length =
      (diskAfter disk0 (computeDiff tree storage0 disk0).2).length := by
  have hmain := republish_processFile tree storage0 disk0 hnodup hne
  have hnil := computeDiff_snd_eq_nil tree
    (storageAfter storage0 (computeDiff tree storage0 disk0).2)
    (diskAfter disk0 (computeDiff tree storage0 disk0).2)
    (fun f hf => ⟨_, hmain f hf⟩)
  refine ⟨fun f hf => hmain f hf, hnil, ?_⟩
  rw [hnil]
  simp [diskAfter]

/-- The one-file tree used as the concrete republish witness. -/
def wTree : List FileMD5 := [{ path := 'a' :: [], md5 := md5Zero }]

/-- Witness for `republish_dedup` on a one-file tree over empty storage. -/
theorem republish_dedup_witness :
    (wTree.map FileMD5.md5).Nodup ∧
    ((∀ f ∈ wTree,
        processFile (hackList (storageAfter [] (computeDiff wTree [] []).2))
          (diskAfter [] (computeDiff wTree [] []).2) f =
        Sum.inl { fileStoragePath := resolvedName (hackList []) [] f,
                  installPath := f.path, md5 := f.md5 }) ∧
      (computeDiff wTree (storageAfter [] (computeDiff wTree [] []).2)
          (diskAfter [] (computeDiff wTree [] []).2)).2 = [] ∧
      (diskAfter (diskAfter [] (computeDiff wTree [] []).2)
          (computeDiff wTree (storageAfter [] (computeDiff wTree [] []).2)
            (diskAfter [] (computeDiff wTree [] []).2)).2).length =
        (diskAfter [] (computeDiff wTree [] []).2).length) :=
  ⟨by decide, republish_dedup wTree [] [] (by decide) (by decide) (by decide)⟩

/-- The two-file tree with duplicate content used as the republish
counterexample. -/
def cexTree : List FileMD5 :=
  [{ path := 'a' :: [], md5 := md5Zero }, { path := 'b' :: [], md5 := md5Zero }]

/-- C3 counterexample: a tree holding two files with identical content.
On the first publish (empty storage) file `b` is assigned the storage
name `0000-b`; republishing the very same tree afterwards resolves `b`
to the first blob with that hash, `0000-a` — not the storage name it
received on the first publish. -/
theorem republish_name_instability_cex :
    resolvedName (hackList []) [] { path := 'b' :: [], md5 := md5Zero } =
      '0' :: '0' :: '0' :: '0' :: '-' :: 'b' :: [] ∧
    resolvedName (hackList (storageAfter [] (computeDiff cexTree [] []).2))
        (diskAfter [] (computeDiff cexTree [] []).2)
        { path := 'b' :: [], md5 := md5Zero } =
      '0' :: '0' :: '0' :: '0' :: '-' :: 'a' :: [] ∧
    ('0' :: '0' :: '0' :: '0' :: '-' :: 'b' :: [] : Str) ≠
      '0' :: '0' :: '0' :: '0' :: '-' :: 'a' :: [] := by
  refine ⟨by decide, by decide, by decide⟩

end Repoman
